import Mathlib

/-!
Verification of the metaphysfs virtual-filesystem core against its
natural-language specification.  The C++ sources under `src/` are shallowly
embedded: paths and raw file contents are lists of byte values (`List Nat`),
machine integers are `Nat`/`Int` with explicit `% 2^32` where the C code
relies on 32-bit wraparound, fallible operations return `Option` or a result
record carrying an optional error code, and the mutable structures
(search path, open-handle lists, directory trees, streams) are passed as
explicit state.
-/

namespace MetaPhysFS

/-- Error codes from the PHYSFS_ErrorCode enumeration (the subset the
embedded operations can produce). -/
inductive ErrCode where
  | OK
  | BAD_FILENAME
  | FILES_STILL_OPEN
  | NOT_MOUNTED
  | PAST_EOF
  | CORRUPT
  | UNSUPPORTED
  | READ_ONLY
  | NOT_FOUND
  | NOT_A_FILE
  | OPEN_FOR_READING
  | OPEN_FOR_WRITING
  deriving DecidableEq, Repr


/-! ## Path sanitation (physfs.cpp, sanitizePlatformIndependentPath)

Byte values: 46 is the dot, 47 is the slash, 58 is the colon and 92 is the
backslash. -/

/-- Main loop of `sanitizePlatformIndependentPath` (physfs.cpp lines
766-796).  The argument `src` is the unread input, `dstAcc` holds the output
bytes written before the current segment, and `seg` holds the bytes of the
segment currently being copied (the C code marks its start with the `prev`
pointer).  The flag `pend` is true while the loop is chopping out a run of
doubled slashes: the separator it will emit is held back, so that a run
that reaches the end of the input produces no trailing separator, exactly
as the C break does.  Returning `none` models
`BAIL(PHYSFS_ERR_BAD_FILENAME, 0)`. -/
def sanitizeLoop : List Nat → Bool → List Nat → List Nat → Option (List Nat)
  | [], _, dstAcc, seg =>
      -- ch is the terminating NUL: it is copied and the loop exits without
      -- any check of the final segment.
      some (dstAcc ++ seg)
  | c :: rest, pend, dstAcc, seg =>
      if c = 58 ∨ c = 92 then
        none
      else if c = 47 then
        if pend then
          -- Doubled separator, chopped out.
          sanitizeLoop rest true dstAcc seg
        else if seg = [46] ∨ seg = [46, 46] then
          -- The segment just ended is "." or "..": illegal.
          none
        else
          sanitizeLoop rest true (dstAcc ++ seg) []
      else
        if pend then
          -- More input follows the separator run: the separator is emitted
          -- and a new segment starts.
          sanitizeLoop rest false (dstAcc ++ [47]) [c]
        else
          sanitizeLoop rest false dstAcc (seg ++ [c])


/-- Embedding of `sanitizePlatformIndependentPath` (physfs.cpp lines
754-799).  Leading slashes are skipped, a whole input of "." or ".." is
rejected, then the copying loop runs.  `none` models returning zero with
`PHYSFS_ERR_BAD_FILENAME`; `some out` models returning non-zero with `out`
deposited in the destination buffer. -/
def sanitizePlatformIndependentPath (src : List Nat) : Option (List Nat) :=
  let s := src.dropWhile (· = 47)
  if s = [46] ∨ s = [46, 46] then none
  else sanitizeLoop s false [] []


/-- A path (as a byte list) contains the byte `b`. -/
def containsByte (l : List Nat) (b : Nat) : Bool := l.contains b


/-- The list of `/`-separated segments of a byte path. -/
def pathSegments (l : List Nat) : List (List Nat) :=
  l.splitOn 47


/-! ## Byte-range seek (physfs_archiver_unpacked.cpp, UNPK_seek) -/

/-- Per-entry data of an unpacked archive (UNPKentry, the fields `UNPK_seek`
reads). -/
structure UNPKentry where
  startPos : Nat
  size : Nat
  deriving DecidableEq, Repr


/-- Open-file state of a byte-range stream (UNPKfileinfo).  The parent
stream is abstracted by the seek oracle passed to `UNPK_seek`. -/
structure UNPKfileinfo where
  entry : UNPKentry
  curPos : Nat
  deriving DecidableEq, Repr


/-- Result of `UNPK_seek`: the C return code, the error code it set (if
any), and the updated file state. -/
structure SeekResult where
  rc : Bool
  err : Option ErrCode
  finfo : UNPKfileinfo
  deriving DecidableEq, Repr


/-- Embedding of `UNPK_seek` (physfs_archiver_unpacked.cpp lines 62-73).
The parent stream's seek is abstracted as `parentSeek`, giving the success
flag of `finfo->io->seek(finfo->io, entry->startPos + offset)`. -/
def UNPK_seek (parentSeek : Nat → Bool) (finfo : UNPKfileinfo) (offset : Nat) :
    SeekResult :=
  if finfo.entry.size ≤ offset then
    ⟨false, some .PAST_EOF, finfo⟩
  else if parentSeek (finfo.entry.startPos + offset) then
    ⟨true, none, { finfo with curPos := offset }⟩
  else
    ⟨false, none, finfo⟩


/-! ## End-of-file test (physfs.cpp, PHYSFS_eof) -/

/-- The fields of a user file handle read by `PHYSFS_eof`, together with
the results the underlying stream would give for `io->tell` and
`io->length` (both report `-1`, modelled as any negative value, when
unknown). -/
structure EofHandle where
  forReading : Bool
  bufpos : Nat
  buffill : Nat
  tellResult : Int
  lengthResult : Int
  deriving DecidableEq, Repr


/-- Embedding of `PHYSFS_eof` (physfs.cpp lines 2533-2554). -/
def PHYSFS_eof (fh : EofHandle) : Bool :=
  if !fh.forReading then
    -- Never EOF on files opened for write/append.
    false
  else if fh.bufpos = fh.buffill then
    if fh.tellResult < 0 ∨ fh.lengthResult < 0 then false
    else fh.lengthResult ≤ fh.tellResult
  else
    false


/-! ## Unmounting (physfs.cpp, PHYSFS_unmount and freeDirHandle) -/

/-- A mounted archive on the search path.  The field `dhid` stands in for
the `DirHandle*` pointer identity. -/
structure DirHandle where
  dhid : Nat
  dirName : List Nat
  deriving DecidableEq, Repr


/-- An open user file handle as far as unmounting is concerned: the
identity of the mount its `dirHandle` field points to. -/
structure OpenHandle where
  dirHandle : Nat
  deriving DecidableEq, Repr


/-- The pieces of global state touched by `PHYSFS_unmount`: the search
path and the two open-handle lists. -/
structure PFState where
  searchPath : List DirHandle
  openReadList : List OpenHandle
  openWriteList : List OpenHandle
  deriving DecidableEq, Repr


/-- Embedding of the `freeDirHandle` guard (physfs.cpp lines 894-899): the
handle list it is given is scanned for a handle referencing `dh`; a hit
fails with FILES_STILL_OPEN. -/
def freeDirHandleBlocked (dh : DirHandle) (openList : List OpenHandle) : Bool :=
  openList.any (fun h => h.dirHandle = dh.dhid)


/-- Search-path scan of `PHYSFS_unmount` (physfs.cpp lines 1613-1629),
returning the error code (`none` is success) and the resulting search
path.  Note the C code passes only `openReadList` to `freeDirHandle`. -/
def unmountLoop (readList : List OpenHandle) (sp : List DirHandle)
    (oldDir : List Nat) : Option ErrCode × List DirHandle :=
  match sp with
  | [] => (some .NOT_MOUNTED, [])
  | d :: rest =>
    if d.dirName = oldDir then
      if freeDirHandleBlocked d readList then
        (some .FILES_STILL_OPEN, d :: rest)
      else
        (none, rest)
    else
      let r := unmountLoop readList rest oldDir
      (r.1, d :: r.2)


/-- Embedding of `PHYSFS_unmount` (physfs.cpp lines 1605-1630). -/
def PHYSFS_unmount (st : PFState) (oldDir : List Nat) :
    Option ErrCode × PFState :=
  let r := unmountLoop st.openReadList st.searchPath oldDir
  (r.1, { st with searchPath := r.2 })


/-! ## Mounting (physfs.cpp, doMount and createDirHandle) -/

/-- A search-path record as created by `createDirHandle` for `doMount`: the
dir name it is found by and the normalized mount point (absent when the
sanitized mount point is empty). -/
structure MountRecord where
  dirName : List Nat
  mountPoint : Option (List Nat)
  deriving DecidableEq, Repr


/-- Embedding of `createDirHandle` (physfs.cpp lines 845-891) as used by
`doMount`: the mount point is sanitized (failure aborts) and, when the
sanitized result is non-empty, stored with a trailing slash appended.  The
`openDirectory` backend dispatch over the source stream is abstracted by
`openOk` (its success flag): C6 is about the search-path bookkeeping, which
is independent of which backend claims the source. -/
def createDirHandle (openOk : Bool) (newDir : List Nat)
    (mountPoint : List Nat) : Option MountRecord :=
  match sanitizePlatformIndependentPath mountPoint with
  | none => none
  | some mp =>
    if !openOk then none
    else some ⟨newDir, if mp = [] then none else some (mp ++ [47])⟩


/-- Embedding of `doMount` (physfs.cpp lines 1495-1533).  The state is the
search path; a missing mount point defaults to "/"; an existing entry with
the same dir name short-circuits to success; otherwise the new record is
linked at the head or appended at the tail. -/
def doMount (openOk : Bool) (sp : List MountRecord) (fname : List Nat)
    (mountPoint : Option (List Nat)) (appendToPath : Bool) :
    Bool × List MountRecord :=
  let mp := mountPoint.getD [47]
  if sp.any (fun i => i.dirName = fname) then
    (true, sp)
  else
    match createDirHandle openOk fname mp with
    | none => (false, sp)
    | some dh => if appendToPath then (true, sp ++ [dh]) else (true, dh :: sp)


/-! ## Buffered writes (physfs.cpp, doBufferedWrite and PHYSFS_flush) -/

/-- The underlying stream of a write handle, recording the bytes written
to it.  The model stream accepts every write in full, so `write` returns
the byte count (always positive for non-empty writes), matching the
contract that failures are negative-or-zero returns. -/
structure WStream where
  written : List Nat
  deriving DecidableEq, Repr


/-- Model of `io->write`: appends the bytes and returns how many were
written. -/
def wioWrite (s : WStream) (bytes : List Nat) : Int × WStream :=
  (bytes.length, ⟨s.written ++ bytes⟩)


/-- A user file handle as seen by the buffered-write path.  The C buffer
with its fill count is modelled as the list of live bytes
(`buffer[0..buffill)`), so `buffill = buffer.length`. -/
structure WFileHandle where
  forReading : Bool
  bufpos : Nat
  buffer : List Nat
  bufsize : Nat
  deriving DecidableEq, Repr


/-- Embedding of `PHYSFS_flush` (physfs.cpp lines 2631-2645): a read handle
or an empty buffer is a successful no-op; otherwise
`buffer[bufpos..buffill)` is written to the stream and the buffer is
reset. -/
def PHYSFS_flush (fh : WFileHandle) (s : WStream) :
    Bool × WFileHandle × WStream :=
  if fh.forReading ∨ fh.bufpos = fh.buffer.length then
    (true, fh, s)
  else
    let r := wioWrite s (fh.buffer.drop fh.bufpos)
    if r.1 ≤ 0 then (false, fh, r.2)
    else (true, { fh with buffer := [], bufpos := 0 }, r.2)


/-- Embedding of `doBufferedWrite` (physfs.cpp lines 2492-2507): the
payload is coalesced into the buffer only while `buffill + len` stays
STRICTLY below `bufsize`; otherwise the handle is flushed and the payload
goes to the stream unbuffered. -/
def doBufferedWrite (fh : WFileHandle) (s : WStream) (payload : List Nat) :
    Int × WFileHandle × WStream :=
  if fh.buffer.length + payload.length < fh.bufsize then
    ((payload.length : Int), { fh with buffer := fh.buffer ++ payload }, s)
  else
    let f := PHYSFS_flush fh s
    if !f.1 then (-1, f.2.1, f.2.2)
    else
      let r := wioWrite f.2.2 payload
      (r.1, f.2.1, r.2)


/-! ## Buffered reads (physfs.cpp, doBufferedRead and PHYSFS_readBytes) -/

/-- A readable underlying stream: its full byte content and the cursor.
Reads return `min(len, remaining)` bytes and advance the cursor, returning
zero bytes only at EOF — the contract of §4.A and of the byte-range and
memory backings. -/
structure RStream where
  data : List Nat
  pos : Nat
  deriving DecidableEq, Repr


/-- Model of `io->read`: the bytes delivered and the advanced stream. -/
def rioRead (s : RStream) (len : Nat) : List Nat × RStream :=
  let bytes := (s.data.drop s.pos).take len
  (bytes, { s with pos := s.pos + bytes.length })


/-- The buffer state of a read handle: the live bytes
`buffer[0..buffill)` and the drain cursor `bufpos`. -/
structure RFileHandle where
  buffer : List Nat
  bufpos : Nat
  deriving DecidableEq, Repr


/-- Embedding of `doBufferedRead` (physfs.cpp lines 2430-2463): while bytes
remain to deliver, the buffer window `buffer[bufpos..buffill)` is drained
first; an empty window is refilled by ONE underlying read of `bufsize`
bytes; a refill that delivers nothing ends the loop with whatever was
copied. -/
def doBufferedRead (bufsize : Nat) (fh : RFileHandle) (s : RStream)
    (len : Nat) : List Nat × RFileHandle × RStream :=
  if hl : len = 0 then
    ([], fh, s)
  else
    if ha : 0 < fh.buffer.length - fh.bufpos then
      -- Data available in the buffer.
      let cpy := min len (fh.buffer.length - fh.bufpos)
      let out := (fh.buffer.drop fh.bufpos).take cpy
      let r := doBufferedRead bufsize { fh with bufpos := fh.bufpos + cpy } s
        (len - cpy)
      (out ++ r.1, r.2)
    else
      -- Buffer is empty: refill it.
      let rd := rioRead s bufsize
      if hr : 0 < rd.1.length then
        doBufferedRead bufsize ⟨rd.1, 0⟩ rd.2 len
      else
        ([], ⟨[], 0⟩, rd.2)
  termination_by 2 * len + (if fh.buffer.length - fh.bufpos = 0 then 1 else 0)
  decreasing_by
    · have h1 : 1 ≤ len := Nat.pos_of_ne_zero hl
      have h2 : 1 ≤ min len (fh.buffer.length - fh.bufpos) := le_min h1 ha
      split_ifs <;> omega
    · have hr2 : 0 < (rioRead s bufsize).1.length := hr
      split_ifs <;> omega


/-- The remaining logical bytes a buffered read handle can deliver: first
the undrained buffer window, then the rest of the underlying stream. -/
def logicalRest (fh : RFileHandle) (s : RStream) : List Nat :=
  fh.buffer.drop fh.bufpos ++ s.data.drop s.pos


/-- The read-path fields of a user file handle for `PHYSFS_readBytes`:
whether it reads, its optional buffer (with `bufsize`), and its underlying
stream. -/
structure RUserHandle where
  forReading : Bool
  buffer : Option RFileHandle
  bufsize : Nat
  strm : RStream
  deriving DecidableEq, Repr


/-- Embedding of `PHYSFS_readBytes` (physfs.cpp lines 2474-2490): a write
handle fails with OPEN_FOR_WRITING, a zero-length read returns nothing,
and otherwise the read goes through `doBufferedRead` when a buffer is set
and directly to the underlying stream when not.  The address-space and
2^63 guards on `len` are vacuous for the model's Nat lengths. -/
def PHYSFS_readBytes (fh : RUserHandle) (len : Nat) :
    (Option ErrCode × List Nat) × RUserHandle :=
  if fh.forReading = false then
    ((some .OPEN_FOR_WRITING, []), fh)
  else if len = 0 then
    ((none, []), fh)
  else
    match fh.buffer with
    | some b =>
      let r := doBufferedRead fh.bufsize b fh.strm len
      ((none, r.1), { fh with buffer := some r.2.1, strm := r.2.2 })
    | none =>
      let r := rioRead fh.strm len
      ((none, r.1), { fh with strm := r.2 })


/-! ## Directory tree (physfs_tree.cpp)

Names are lists of byte values.  The C `char` is signed, so a byte at or
above 128 is sign-extended before the 32-bit XOR in the hash. -/

/-- Sign extension of a byte to the 32-bit value the C `hash ^ ch`
sees. -/
def signExtendByte (c : Nat) : Nat :=
  if c < 128 then c else 4294967040 + c


/-- One step of the DJB2 variant: `hash = ((hash << 5) + hash) ^ ch` in
32-bit arithmetic. -/
def hashStep (h c : Nat) : Nat :=
  ((h * 33) % 4294967296) ^^^ signExtendByte c


/-- Embedding of `__PHYSFS_hashString` (physfs.cpp lines 1206-1216). -/
def hashString (name : List Nat) : Nat :=
  name.foldl hashStep 5381


/-- ASCII case folding `A..Z → a..z` as done byte-wise by
`__PHYSFS_hashStringCaseFoldUSAscii`. -/
def asciiLower (c : Nat) : Nat :=
  if 65 ≤ c ∧ c ≤ 90 then c + 32 else c


/-- Embedding of `__PHYSFS_hashStringCaseFoldUSAscii` (physfs.cpp lines
1236-1249). -/
def hashStringCaseFoldUSAscii (name : List Nat) : Nat :=
  name.foldl (fun h c => hashStep h (asciiLower c)) 5381


/-- Modelled from the spec: `PHYSFS_caseFold` and `__PHYSFS_utf8codepoint`
live in physfs_unicode.c, which is not among the sources; §4.B says the
case-insensitive variants "either ASCII-fold (`A..Z → a..z`) or
Unicode-fold per codepoint via the platform layer".  The model treats each
byte as one codepoint and folds it to a single codepoint by the ASCII
fold. -/
def caseFoldByte (c : Nat) : List Nat :=
  [asciiLower c]


/-- The four little-endian bytes of a 32-bit value, as hashed by
`__PHYSFS_hashStringCaseFold` from its `PHYSFS_uint32 folded[3]` array. -/
def u32LEBytes (v : Nat) : List Nat :=
  [v % 256, (v / 256) % 256, (v / 65536) % 256, (v / 16777216) % 256]


/-- Embedding of `__PHYSFS_hashStringCaseFold` (physfs.cpp lines
1219-1234): every folded codepoint contributes the four bytes of its
32-bit value to the hash. -/
def hashStringCaseFold (name : List Nat) : Nat :=
  (((name.map caseFoldByte).join.map u32LEBytes).join).foldl hashStep 5381


/-- Modelled from the spec: `PHYSFS_utf8stricmp` (physfs_unicode.c, not
among the sources) compares two strings case-insensitively after folding
per codepoint; modelled as equality of the byte-wise folded names. -/
def utf8stricmpEq (a b : List Nat) : Bool :=
  a.map asciiLower == b.map asciiLower


/-- A directory-tree entry (`__PHYSFS_DirTreeEntry` extended with the
`UNPKentry` payload fields, which `__PHYSFS_DirTreeAdd` zero-fills).  The
intrusive child/sibling links used only by enumeration are not
modelled. -/
structure DirTreeEntry where
  name : List Nat
  isdir : Bool
  startPos : Nat
  size : Nat
  ctime : Int
  mtime : Int
  deriving DecidableEq, Repr


/-- A directory tree (`__PHYSFS_DirTree`): the root entry, the 64 hash
buckets (each an ordered chain), and the two flags choosing hash and
comparison functions. -/
structure DirTree where
  root : DirTreeEntry
  buckets : List (List DirTreeEntry)
  caseSensitive : Bool
  onlyUsascii : Bool
  deriving DecidableEq, Repr


/-- Embedding of `__PHYSFS_DirTreeInit` (physfs_tree.cpp lines 11-36):
root named "/", marked as a directory, 64 empty buckets. -/
def DirTreeInit (caseSensitive onlyUsascii : Bool) : DirTree :=
  ⟨⟨[47], true, 0, 0, 0, 0⟩, List.replicate 64 [], caseSensitive, onlyUsascii⟩


/-- Embedding of `hashPathName` (physfs_tree.cpp lines 38-41). -/
def hashPathName (dt : DirTree) (name : List Nat) : Nat :=
  (if dt.caseSensitive then hashString name
   else if dt.onlyUsascii then hashStringCaseFoldUSAscii name
   else hashStringCaseFold name) % 64


/-- The name comparison `__PHYSFS_DirTreeFind` performs on each chain
entry: `strcmp` when case-sensitive, `PHYSFS_utf8stricmp` otherwise. -/
def nameMatches (dt : DirTree) (a b : List Nat) : Bool :=
  if dt.caseSensitive then a == b else utf8stricmpEq a b


/-- The bucket-chain scan of `__PHYSFS_DirTreeFind` (physfs_tree.cpp lines
101-118): the first matching entry is returned along with the remainder of
the chain with that entry removed — the caller re-links it at the chain
head, which models the move-to-front splice through `prev->hashnext`. -/
def bucketScan (dt : DirTree) (p : List Nat) :
    List DirTreeEntry → Option (DirTreeEntry × List DirTreeEntry)
  | [] => none
  | e :: rest =>
    if nameMatches dt e.name p then some (e, rest)
    else
      match bucketScan dt p rest with
      | none => none
      | some (r, rest2) => some (r, e :: rest2)


/-- Embedding of `__PHYSFS_DirTreeFind` (physfs_tree.cpp lines 92-121):
the empty path returns the root; otherwise the bucket for the path's hash
is scanned, and a hit is spliced to the bucket head. -/
def DirTreeFind (dt : DirTree) (path : List Nat) :
    Option DirTreeEntry × DirTree :=
  if path = [] then (some dt.root, dt)
  else
    match bucketScan dt path (dt.buckets.getD (hashPathName dt path) []) with
    | none => (none, dt)
    | some (e, rest) =>
      (some e,
        { dt with buckets :=
            dt.buckets.set (hashPathName dt path) (e :: rest) })


/-- The index of the last slash in a name, as found by
`strrchr(name, '/')`. -/
def lastSlashIdx : List Nat → Option Nat
  | [] => none
  | c :: rest =>
    match lastSlashIdx rest with
    | some i => some (i + 1)
    | none => if c = 47 then some 0 else none


mutual

/-- Embedding of `addAncestors` (physfs_tree.cpp lines 44-64): when the
name has a slash, the parent prefix is looked up (with the usual
move-to-front side effect); a parent that exists as a file fails with
CORRUPT (`none`), a missing parent is added recursively as a
directory. -/
def addAncestors (dt : DirTree) (name : List Nat) :
    Option (DirTreeEntry × DirTree) :=
  match hs : lastSlashIdx name with
  | none => some (dt.root, dt)
  | some i =>
    match DirTreeFind dt (name.take i) with
    | (some e, dt2) => if e.isdir then some (e, dt2) else none
    | (none, dt2) => DirTreeAdd dt2 (name.take i) true
  termination_by (name.length, 0)
  decreasing_by
    apply Prod.Lex.left
    have hgen : ∀ (nm : List Nat) (j : Nat),
        lastSlashIdx nm = some j → j < nm.length := by
      intro nm
      induction nm with
      | nil => intro j h; simp [lastSlashIdx] at h
      | cons c rest ih =>
        intro j h
        rw [lastSlashIdx] at h
        cases hrec : lastSlashIdx rest with
        | some k =>
          rw [hrec] at h
          obtain rfl : k + 1 = j := by simpa using h
          exact Nat.succ_lt_succ (ih k hrec)
        | none =>
          rw [hrec] at h
          by_cases hc : c = 47
          · rw [if_pos hc] at h
            obtain rfl : (0 : Nat) = j := by simpa using h
            simp
          · simp [hc] at h
    have hlt := hgen name i hs
    simp only [List.length_take]
    omega

/-- Embedding of `__PHYSFS_DirTreeAdd` (physfs_tree.cpp lines 66-89): an
existing entry is returned as-is; otherwise ancestors are ensured and a
zero-filled entry is linked at the head of its hash bucket. -/
def DirTreeAdd (dt : DirTree) (name : List Nat) (isdir : Bool) :
    Option (DirTreeEntry × DirTree) :=
  match DirTreeFind dt name with
  | (some e, dt1) => some (e, dt1)
  | (none, dt1) =>
    match addAncestors dt1 name with
    | none => none
    | some (_, dt2) =>
      some (⟨name, isdir, 0, 0, 0, 0⟩,
        { dt2 with buckets :=
            (dt2.buckets.set (hashPathName dt2 name)
              (⟨name, isdir, 0, 0, 0, 0⟩ ::
                dt2.buckets.getD (hashPathName dt2 name) [])) })
  termination_by (name.length, 1)
  decreasing_by
    apply Prod.Lex.right
    omega

end


/-- Well-formedness of a directory tree: 64 buckets, and within each
bucket no two entries match each other (so every lookup has at most one
candidate). -/
def treeWF (dt : DirTree) : Prop :=
  dt.buckets.length = 64 ∧
  ∀ i < 64, (dt.buckets.getD i []).Pairwise
    (fun x y => nameMatches dt x.name y.name = false)


instance treeWF_decidable (dt : DirTree) : Decidable (treeWF dt) := by
  unfold treeWF
  infer_instance


/-! ## Unpacked-archive framework (physfs_archiver_unpacked.cpp) and the
GRP / QPAK adapters -/

/-- An opened unpacked archive (UNPKinfo): the directory tree plus the
parent stream it reads from. -/
structure UNPKinfo where
  tree : DirTree
  strm : RStream
  deriving DecidableEq, Repr


/-- Embedding of `UNPK_openArchive` (physfs_archiver_unpacked.cpp lines
248-259): a fresh tree over the parent stream. -/
def UNPK_openArchive (strm : RStream) (caseSensitive onlyUsascii : Bool) :
    UNPKinfo :=
  ⟨DirTreeInit caseSensitive onlyUsascii, strm⟩


/-- Replacement of the head entry of a bucket chain: `__PHYSFS_DirTreeAdd`
always leaves the entry it returns at the head of its hash bucket (a hit
is spliced to the head by the embedded find, a fresh insert is linked at
the head), so writing the payload fields through the returned pointer is
the same as replacing the bucket head. -/
def replaceHead (b : List DirTreeEntry) (e2 : DirTreeEntry) :
    List DirTreeEntry :=
  match b with
  | [] => [e2]
  | _ :: rest => e2 :: rest


/-- Embedding of `UNPK_addEntry` (physfs_archiver_unpacked.cpp lines
234-246): the entry is added to the tree, then its payload fields are
written in place (`startPos` and `size` are forced to zero for
directories).  An empty name designates the root entry. -/
def UNPK_addEntry (t : DirTree) (name : List Nat) (isdir : Bool)
    (ctime mtime : Int) (pos len : Nat) : Option (DirTreeEntry × DirTree) :=
  match DirTreeAdd t name isdir with
  | none => none
  | some (e, t1) =>
    let e2 : DirTreeEntry :=
      { e with startPos := if isdir then 0 else pos,
               size := if isdir then 0 else len,
               ctime := ctime, mtime := mtime }
    if name = [] then
      some (e2, { t1 with root := e2 })
    else
      some (e2, { t1 with buckets :=
        (t1.buckets.set (hashPathName t1 name)
          (replaceHead (t1.buckets.getD (hashPathName t1 name) []) e2)) })


/-- Embedding of `__PHYSFS_readAll` (physfs.cpp lines 2701-2704): a read
that must deliver exactly the requested number of bytes. -/
def readAll (s : RStream) (n : Nat) : Option (List Nat × RStream) :=
  let r := rioRead s n
  if r.1.length = n then some r else none


/-- Little-endian decoding of a 4-byte field (`PHYSFS_swapLE` is the
identity on the little-endian wire format). -/
def u32LE (b : List Nat) : Nat :=
  b.getD 0 0 + 256 * b.getD 1 0 + 65536 * b.getD 2 0 +
    16777216 * b.getD 3 0


/-- An open byte-range reader over an unpacked-archive entry
(UNPKfileinfo with its duplicated parent stream). -/
structure UNPKReader where
  entry : DirTreeEntry
  curPos : Nat
  strm : RStream
  deriving DecidableEq, Repr


/-- Embedding of `UNPK_read` (physfs_archiver_unpacked.cpp lines 38-52):
the length is clamped to the bytes left in the entry, the parent delivers,
and `curPos` advances by the bytes actually delivered. -/
def UNPK_read (f : UNPKReader) (len : Nat) : List Nat × UNPKReader :=
  let bytesLeft := f.entry.size - f.curPos
  let len2 := if bytesLeft < len then bytesLeft else len
  let r := rioRead f.strm len2
  (r.1, { f with curPos := f.curPos + r.1.length, strm := r.2 })


/-- Embedding of `UNPK_openRead` (physfs_archiver_unpacked.cpp lines
155-194): the entry is looked up (with find's usual splice), directories
fail with NOT_A_FILE, the archive's parent stream is duplicated (a fresh
cursor over the same data) and seeked to the entry's start.  The model
seek of the duplicated stream succeeds when the target offset is within
the data, as for a memory stream. -/
def UNPK_openRead (info : UNPKinfo) (name : List Nat) :
    Option UNPKReader × UNPKinfo :=
  match DirTreeFind info.tree name with
  | (none, t1) => (none, { info with tree := t1 })
  | (some e, t1) =>
    if e.isdir then (none, { info with tree := t1 })
    else if e.startPos ≤ info.strm.data.length then
      (some ⟨e, 0, ⟨info.strm.data, e.startPos⟩⟩, { info with tree := t1 })
    else (none, { info with tree := t1 })


/-- The stat record filled by `UNPK_stat`. -/
structure PStat where
  filesize : Int
  modtime : Int
  createtime : Int
  accesstime : Int
  isdir : Bool
  readonly : Bool
  deriving DecidableEq, Repr


/-- Embedding of `UNPK_stat` (physfs_archiver_unpacked.cpp lines
212-232). -/
def UNPK_stat (info : UNPKinfo) (path : List Nat) :
    Option PStat × UNPKinfo :=
  match DirTreeFind info.tree path with
  | (none, t1) => (none, { info with tree := t1 })
  | (some e, t1) =>
    (some ⟨if e.isdir then 0 else (e.size : Int), e.mtime, e.ctime, -1,
      e.isdir, true⟩, { info with tree := t1 })


/-- The result of an adapter's `openArchive`: either an archive, or a
failure carrying whether the stream had been claimed and which error code
the adapter itself set (`none` when it passes through a lower error). -/
inductive OpenResult (α : Type) where
  | ok (arc : α)
  | fail (claimed : Bool) (err : Option ErrCode)
  deriving DecidableEq, Repr


/-- The GRP name field: 12 raw bytes, NUL-terminated by force, then
truncated at the first space (`strchr(name, ' ')`). -/
def grpName (raw : List Nat) : List Nat :=
  (raw.takeWhile (fun c => c ≠ 0)).takeWhile (fun c => c ≠ 32)


/-- Embedding of the loop of `grpLoadEntries`
(physfs_archiver_grp.cpp lines 32-56): each iteration reads a 12-byte
name and a little-endian 32-bit size, adds the entry at the running data
offset, and advances the offset by the entry's size. -/
def grpLoadLoop : Nat → Nat → DirTree → RStream →
    Option (DirTree × RStream)
  | _, 0, t, s => some (t, s)
  | pos, count + 1, t, s =>
    match readAll s 12 with
    | none => none
    | some (raw, s1) =>
      match readAll s1 4 with
      | none => none
      | some (szb, s2) =>
        match UNPK_addEntry t (grpName raw) false (-1) (-1) pos
            (u32LE szb) with
        | none => none
        | some (_, t2) => grpLoadLoop (pos + u32LE szb) count t2 s2


/-- The 12 signature bytes "KenSilverman". -/
def kenSig : List Nat :=
  [75, 101, 110, 83, 105, 108, 118, 101, 114, 109, 97, 110]


/-- Embedding of `GRP_openArchive` (physfs_archiver_grp.cpp lines 58-82):
writing is rejected, a wrong signature is UNSUPPORTED without claiming,
then the stream is claimed, the entry count read, and the entries loaded
into a case-insensitive US-ASCII tree starting at data offset
`16 + 16 * count`. -/
def GRP_openArchive (s : RStream) (forWriting : Bool) :
    OpenResult UNPKinfo :=
  if forWriting then .fail false (some .READ_ONLY)
  else
    match readAll s 12 with
    | none => .fail false none
    | some (sig, s1) =>
      if sig ≠ kenSig then .fail false (some .UNSUPPORTED)
      else
        match readAll s1 4 with
        | none => .fail true none
        | some (cntb, s2) =>
          match grpLoadLoop (16 + 16 * u32LE cntb) (u32LE cntb)
              (DirTreeInit false true) s2 with
          | none => .fail true none
          | some (t, s3) => .ok ⟨t, s3⟩


/-- Embedding of the loop of `qpakLoadEntries`
(physfs_archiver_qpak.cpp lines 39-54): each 64-byte directory record is
a 56-byte name (a NUL-terminated C string) followed by little-endian
32-bit position and size. -/
def qpakLoadLoop : Nat → DirTree → RStream → Option (DirTree × RStream)
  | 0, t, s => some (t, s)
  | count + 1, t, s =>
    match readAll s 56 with
    | none => none
    | some (raw, s1) =>
      match readAll s1 4 with
      | none => none
      | some (posb, s2) =>
        match readAll s2 4 with
        | none => none
        | some (szb, s3) =>
          match UNPK_addEntry t (raw.takeWhile (fun c => c ≠ 0)) false
              (-1) (-1) (u32LE posb) (u32LE szb) with
          | none => none
          | some (_, t2) => qpakLoadLoop count t2 s3


/-- Embedding of `QPAK_openArchive` (physfs_archiver_qpak.cpp lines
56-94): writing is rejected, a wrong signature is UNSUPPORTED without
claiming, then the stream is claimed, directory offset and length are
read, a length that is not a multiple of 64 is CORRUPT, and otherwise
`dir_len / 64` records are read from the directory at `dir_off` into a
case-sensitive tree.  The value 1262698832 is the little-endian reading
of "PACK" (QPAK_SIG, 0x4B434150). -/
def QPAK_openArchive (s : RStream) (forWriting : Bool) :
    OpenResult UNPKinfo :=
  if forWriting then .fail false (some .READ_ONLY)
  else
    match readAll s 4 with
    | none => .fail false none
    | some (sig, s1) =>
      if u32LE sig ≠ 1262698832 then .fail false (some .UNSUPPORTED)
      else
        match readAll s1 4 with
        | none => .fail true none
        | some (offb, s2) =>
          match readAll s2 4 with
          | none => .fail true none
          | some (lenb, s3) =>
            if u32LE lenb % 64 ≠ 0 then .fail true (some .CORRUPT)
            else if u32LE offb ≤ s3.data.length then
              match qpakLoadLoop (u32LE lenb / 64) (DirTreeInit true false)
                  ⟨s3.data, u32LE offb⟩ with
              | none => .fail true none
              | some (t, s4) => .ok ⟨t, s4⟩
            else .fail true none


/-- The raw records of a GRP header: the trimmed name and the decoded
size of each of `count` consecutive 16-byte records. -/
def grpRecords : Nat → RStream → Option (List (List Nat × Nat) × RStream)
  | 0, s => some ([], s)
  | count + 1, s =>
    match readAll s 12 with
    | none => none
    | some (raw, s1) =>
      match readAll s1 4 with
      | none => none
      | some (szb, s2) =>
        match grpRecords count s2 with
        | none => none
        | some (rs, sf) => some ((grpName raw, u32LE szb) :: rs, sf)


/-- Assignment of data offsets to GRP records: the first record starts at
`pos`; every later record starts where the previous one ended. -/
def grpAssignPos (pos : Nat) :
    List (List Nat × Nat) → List (List Nat × Nat × Nat)
  | [] => []
  | (nm, sz) :: rs => (nm, pos, sz) :: grpAssignPos (pos + sz) rs


/-- Folding positioned records into the directory tree through
`UNPK_addEntry`. -/
def grpFoldAdd (t : DirTree) :
    List (List Nat × Nat × Nat) → Option DirTree
  | [] => some t
  | (nm, pos, sz) :: rs =>
    match UNPK_addEntry t nm false (-1) (-1) pos sz with
    | none => none
    | some (_, t2) => grpFoldAdd t2 rs


/-- The §8 scenario GRP archive: signature, two 16-byte records for
HELLO.TXT (size 5) and DATA.BIN (size 3), then the file data
"world\x01\x02\x03". -/
def grpScenarioBytes : List Nat :=
  kenSig ++ [2, 0, 0, 0] ++
  [72, 69, 76, 76, 79, 46, 84, 88, 84, 32, 32, 32] ++ [5, 0, 0, 0] ++
  [68, 65, 84, 65, 46, 66, 73, 78, 32, 32, 32, 32] ++ [3, 0, 0, 0] ++
  [119, 111, 114, 108, 100] ++ [1, 2, 3]


/-- The entry the scenario parse produces for HELLO.TXT: data offset
`16 + 16*2 = 48`, size 5. -/
def grpHelloEntry : DirTreeEntry :=
  ⟨[72, 69, 76, 76, 79, 46, 84, 88, 84], false, 48, 5, -1, -1⟩


/-- The entry the scenario parse produces for DATA.BIN: data offset
`48 + 5 = 53`, size 3. -/
def grpDataEntry : DirTreeEntry :=
  ⟨[68, 65, 84, 65, 46, 66, 73, 78], false, 53, 3, -1, -1⟩


/-- The directory tree the scenario parse produces (case-insensitive
US-ASCII hashing puts HELLO.TXT in bucket 49 and DATA.BIN in bucket
62). -/
def grpScenarioTree : DirTree :=
  ⟨⟨[47], true, 0, 0, 0, 0⟩,
    (((List.replicate 64 ([] : List DirTreeEntry)).set 49
      [grpHelloEntry]).set 62 [grpDataEntry]),
    false, true⟩


/-- C1 (code_bug evidence): the input "a/.." (bytes [97,47,46,46]) is
accepted by `sanitizePlatformIndependentPath` and the cleaned output is
"a/.." itself, which still contains a ".." segment.  This contradicts both
the specification ("`.` and `..` segments rejected") and the function's own
documentation comment ("If there are illegal bits in the path (".."
entries, etc) then we return zero"): the copying loop only checks a segment
when it is terminated by a slash, so a final "." or ".." segment is never
examined. -/
theorem sanitize_trailing_dotdot_accepted :
    sanitizePlatformIndependentPath [97, 47, 46, 46] = some [97, 47, 46, 46]
      ∧ pathSegments [97, 47, 46, 46] = [[97], [46, 46]] := by
  constructor
  · rfl
  · rfl


/-- C3: a byte-range seek fails with PAST_EOF exactly when the offset is at
or past the entry's size; for an in-range offset whose parent seek to
`startPos + offset` succeeds, the seek succeeds and sets `curPos` to the
offset. -/
theorem UNPK_seek_spec (parentSeek : Nat → Bool) (finfo : UNPKfileinfo)
    (offset : Nat) :
    ((UNPK_seek parentSeek finfo offset).err = some ErrCode.PAST_EOF ↔
      finfo.entry.size ≤ offset) ∧
    (finfo.entry.size ≤ offset →
      UNPK_seek parentSeek finfo offset = ⟨false, some .PAST_EOF, finfo⟩) ∧
    (offset < finfo.entry.size →
      parentSeek (finfo.entry.startPos + offset) = true →
      UNPK_seek parentSeek finfo offset =
        ⟨true, none, { finfo with curPos := offset }⟩) := by
  unfold UNPK_seek
  by_cases h : finfo.entry.size ≤ offset
  · simp [h]
  · have hlt : offset < finfo.entry.size := Nat.lt_of_not_le h
    refine ⟨?_, fun hc => absurd hc h, fun _ hps => ?_⟩
    · by_cases hp : parentSeek (finfo.entry.startPos + offset) <;>
        simp [h, hp]
    · simp [h, hps]


/-- Witness for `UNPK_seek_spec` at the entry `{startPos := 10, size := 4}`
with an always-succeeding parent seek: offset 7 is past EOF, offset 2
succeeds and lands at `curPos = 2`. -/
theorem UNPK_seek_spec_witness :
    (UNPK_seek (fun _ => true) ⟨⟨10, 4⟩, 0⟩ 7).err = some ErrCode.PAST_EOF ∧
    UNPK_seek (fun _ => true) ⟨⟨10, 4⟩, 0⟩ 2 = ⟨true, none, ⟨⟨10, 4⟩, 2⟩⟩ := by
  constructor
  · exact (UNPK_seek_spec (fun _ => true) ⟨⟨10, 4⟩, 0⟩ 7).1.mpr (by decide)
  · exact (UNPK_seek_spec (fun _ => true) ⟨⟨10, 4⟩, 0⟩ 2).2.2 (by decide) rfl


/-- C10: `PHYSFS_eof` is always false on a write/append handle; on a read
handle it is true exactly when the buffer is fully drained
(`bufpos = buffill`), both `tell` and `length` are non-negative, and the
position is at or past the length. -/
theorem PHYSFS_eof_spec (fh : EofHandle) :
    (fh.forReading = false → PHYSFS_eof fh = false) ∧
    (fh.forReading = true →
      (PHYSFS_eof fh = true ↔
        fh.bufpos = fh.buffill ∧ 0 ≤ fh.tellResult ∧ 0 ≤ fh.lengthResult ∧
          fh.lengthResult ≤ fh.tellResult)) := by
  constructor
  · intro h
    simp [PHYSFS_eof, h]
  · intro h
    unfold PHYSFS_eof
    by_cases hb : fh.bufpos = fh.buffill
    · by_cases ht : fh.tellResult < 0
      · simp [h, hb, ht]
      · by_cases hl : fh.lengthResult < 0
        · simp [h, hb, ht, hl]
        · simp [h, hb, ht, hl]
          omega
    · simp [h, hb]


/-- Witness for `PHYSFS_eof_spec`: a write handle is never at EOF, and a
drained read handle positioned at its length is at EOF. -/
theorem PHYSFS_eof_spec_witness :
    PHYSFS_eof ⟨false, 0, 0, 5, 5⟩ = false ∧
    PHYSFS_eof ⟨true, 3, 3, 5, 5⟩ = true := by
  constructor
  · exact (PHYSFS_eof_spec ⟨false, 0, 0, 5, 5⟩).1 rfl
  · exact ((PHYSFS_eof_spec ⟨true, 3, 3, 5, 5⟩).2 rfl).mpr (by decide)


/-- C2 (counterexample): with mount 0 named "a" on the search path and a
handle on the open-WRITE list referencing it, `PHYSFS_unmount "a"`
succeeds and removes the mount, instead of failing with FILES_STILL_OPEN
and leaving the search path unchanged: the C code passes only
`openReadList` to `freeDirHandle`. -/
theorem unmount_ignores_write_list :
    PHYSFS_unmount ⟨[⟨0, [97]⟩], [], [⟨0⟩]⟩ [97] =
      (none, ⟨[], [], [⟨0⟩]⟩) := by
  decide


/-- C2 (amended): if a handle on the open-READ list references the mount
`M`, and `M` is the only search-path entry with its dir name, then
unmounting `M.dirName` fails with FILES_STILL_OPEN and leaves the whole
state unchanged. -/
theorem unmount_files_still_open (st : PFState) (M : DirHandle)
    (h : OpenHandle) (hM : M ∈ st.searchPath)
    (huniq : ∀ d ∈ st.searchPath, d.dirName = M.dirName → d = M)
    (hh : h ∈ st.openReadList) (href : h.dirHandle = M.dhid) :
    PHYSFS_unmount st M.dirName = (some ErrCode.FILES_STILL_OPEN, st) := by
  have hblocked : freeDirHandleBlocked M st.openReadList = true := by
    simp only [freeDirHandleBlocked, List.any_eq_true]
    exact ⟨h, hh, by simp [href]⟩
  have key : ∀ sp : List DirHandle, M ∈ sp →
      (∀ d ∈ sp, d.dirName = M.dirName → d = M) →
      unmountLoop st.openReadList sp M.dirName =
        (some ErrCode.FILES_STILL_OPEN, sp) := by
    intro sp
    induction sp with
    | nil => intro hmem; exact absurd hmem (List.not_mem_nil M)
    | cons d rest ih =>
      intro hmem hu
      by_cases hd : d.dirName = M.dirName
      · have hdM : d = M := hu d (List.mem_cons_self d rest) hd
        subst hdM
        simp [unmountLoop, hblocked]
      · have hmem2 : M ∈ rest := by
          rcases List.mem_cons.mp hmem with h1 | h1
          · exact absurd (congrArg DirHandle.dirName h1.symm) hd
          · exact h1
        have hrec := ih hmem2 (fun e he => hu e (List.mem_cons_of_mem d he))
        simp [unmountLoop, hd, hrec]
  have := key st.searchPath hM huniq
  simp [PHYSFS_unmount, this]


/-- Witness for `unmount_files_still_open`: one mount named "a" with one
read handle on it. -/
theorem unmount_files_still_open_witness :
    PHYSFS_unmount ⟨[⟨0, [97]⟩], [⟨0⟩], []⟩ [97] =
      (some ErrCode.FILES_STILL_OPEN, ⟨[⟨0, [97]⟩], [⟨0⟩], []⟩) :=
  unmount_files_still_open ⟨[⟨0, [97]⟩], [⟨0⟩], []⟩ ⟨0, [97]⟩ ⟨0⟩
    (by decide) (by decide) (by decide) (by decide)


/-- Helper: when some search-path entry already carries the requested dir
name, `doMount` succeeds without touching the search path (the
already-in-search-path early return). -/
theorem doMount_found (openOk : Bool) (sp : List MountRecord)
    (fname : List Nat) (mountPoint : Option (List Nat)) (a : Bool)
    (h : sp.any (fun i => i.dirName = fname) = true) :
    doMount openOk sp fname mountPoint a = (true, sp) := by
  simp only [doMount, h]
  simp


/-- C6: mounting a source that is not yet on the search path succeeds and
leaves exactly one entry with its dir name; mounting it a second time (with
any append flag) also succeeds and leaves the search path unchanged. -/
theorem doMount_idempotent (sp : List MountRecord) (fname : List Nat)
    (mountPoint : Option (List Nat)) (a1 a2 : Bool)
    (habsent : sp.countP (fun i => i.dirName = fname) = 0)
    (hmp : sanitizePlatformIndependentPath (mountPoint.getD [47]) ≠ none) :
    (doMount true sp fname mountPoint a1).1 = true ∧
    doMount true (doMount true sp fname mountPoint a1).2 fname mountPoint a2
      = (true, (doMount true sp fname mountPoint a1).2) ∧
    (doMount true sp fname mountPoint a1).2.countP
      (fun i => i.dirName = fname) = 1 := by
  have hab := List.countP_eq_zero.mp habsent
  have hany : sp.any (fun i => i.dirName = fname) = false := by
    rw [List.any_eq_false]
    intro x hx
    simpa using hab x hx
  obtain ⟨mp, hmp2⟩ :
      ∃ mp, sanitizePlatformIndependentPath (mountPoint.getD [47]) = some mp :=
    Option.ne_none_iff_exists'.mp hmp
  have hcdh : createDirHandle true fname (mountPoint.getD [47]) =
      some ⟨fname, if mp = [] then none else some (mp ++ [47])⟩ := by
    simp [createDirHandle, hmp2]
  have hfst : doMount true sp fname mountPoint a1 =
      (true, if a1 then sp ++ [⟨fname, if mp = [] then none else some (mp ++ [47])⟩]
             else ⟨fname, if mp = [] then none else some (mp ++ [47])⟩ :: sp) := by
    simp only [doMount, hany, hcdh]
    cases a1 <;> simp
  refine ⟨by rw [hfst], ?_, ?_⟩
  · apply doMount_found
    rw [hfst]
    cases a1 <;> simp
  · rw [hfst]
    cases a1 <;>
      simp [List.countP_append, List.countP_cons, habsent]


/-- Witness for `doMount_idempotent`: mounting "a" twice on an empty search
path with the default mount point. -/
theorem doMount_idempotent_witness :
    (doMount true [] [97] none false).1 = true ∧
    doMount true (doMount true [] [97] none false).2 [97] none true
      = (true, (doMount true [] [97] none false).2) ∧
    (doMount true [] [97] none false).2.countP
      (fun i => i.dirName = [97]) = 1 :=
  doMount_idempotent [] [97] none false true (by decide) (by decide)


/-- C7 (counterexample): with `bufsize = 2`, one byte already buffered and
a one-byte write, `buffill + len = bufsize` does "not exceed" the buffer
size, yet the code flushes and writes the payload to the underlying stream
(the coalescing guard is strict `<`): the buffer ends empty and the stream
receives both bytes, contradicting "the payload is copied into the buffer
and nothing is written to the underlying stream". -/
theorem doBufferedWrite_at_capacity_flushes :
    (⟨false, 0, [7], 2⟩ : WFileHandle).buffer.length + [42].length ≤
      (⟨false, 0, [7], 2⟩ : WFileHandle).bufsize ∧
    doBufferedWrite ⟨false, 0, [7], 2⟩ ⟨[]⟩ [42] =
      (1, ⟨false, 0, [], 2⟩, ⟨[7, 42]⟩) := by
  decide


/-- C7 (amended): for a write handle with `bufpos = 0`, if
`buffill + len < bufsize` (strictly) the payload is appended to the buffer
and nothing reaches the underlying stream; if `buffill + len ≥ bufsize`
the buffered bytes are flushed and the payload is then written unbuffered,
leaving the buffer empty and the stream extended by buffer-then-payload. -/
theorem doBufferedWrite_spec (fh : WFileHandle) (s : WStream)
    (payload : List Nat) (hw : fh.forReading = false) (hz : fh.bufpos = 0) :
    (fh.buffer.length + payload.length < fh.bufsize →
      doBufferedWrite fh s payload =
        ((payload.length : Int), { fh with buffer := fh.buffer ++ payload }, s)) ∧
    (fh.bufsize ≤ fh.buffer.length + payload.length →
      doBufferedWrite fh s payload =
        ((payload.length : Int), { fh with buffer := [] },
          ⟨s.written ++ fh.buffer ++ payload⟩)) := by
  constructor
  · intro hlt
    simp [doBufferedWrite, hlt]
  · intro hge
    have hnlt : ¬ (fh.buffer.length + payload.length < fh.bufsize) :=
      Nat.not_lt.mpr hge
    by_cases hempty : fh.buffer = []
    · have hflush : PHYSFS_flush fh s = (true, fh, s) := by
        simp [PHYSFS_flush, hw, hz, hempty]
      have hfh : { fh with buffer := ([] : List Nat) } = fh := by
        rw [← hempty]
      have hnlt2 : ¬ (payload.length < fh.bufsize) := by
        rw [hempty] at hnlt
        simpa using hnlt
      rw [hfh]
      simp [doBufferedWrite, hnlt2, hflush, wioWrite, hempty]
    · have hlen0 : fh.buffer.length ≠ 0 := by
        intro h0
        exact hempty (List.eq_nil_of_length_eq_zero h0)
      have hne0 : (0 : Nat) ≠ fh.buffer.length := fun h0 => hlen0 h0.symm
      have hpos : ¬ ((fh.buffer.length : Int) ≤ 0) :=
        not_le.mpr (Int.natCast_pos.mpr (Nat.pos_of_ne_zero hlen0))
      have hflush : PHYSFS_flush fh s =
          (true, { fh with buffer := [], bufpos := 0 },
            ⟨s.written ++ fh.buffer⟩) := by
        simp [PHYSFS_flush, wioWrite, hw, hz, hne0, hpos]
      have hzz : { fh with buffer := ([] : List Nat), bufpos := 0 } =
          { fh with buffer := ([] : List Nat) } := by
        rw [← hz]
      simp [doBufferedWrite, hnlt, hflush, wioWrite, hzz]


/-- Witness for `doBufferedWrite_spec`: a two-byte buffer of size 8
coalesces a one-byte write, and the same handle with buffer size 3 flushes
and writes through. -/
theorem doBufferedWrite_spec_witness :
    doBufferedWrite ⟨false, 0, [7, 8], 8⟩ ⟨[5]⟩ [42] =
      (1, ⟨false, 0, [7, 8, 42], 8⟩, ⟨[5]⟩) ∧
    doBufferedWrite ⟨false, 0, [7, 8], 3⟩ ⟨[5]⟩ [42] =
      (1, ⟨false, 0, [], 3⟩, ⟨[5, 7, 8, 42]⟩) := by
  constructor
  · exact (doBufferedWrite_spec ⟨false, 0, [7, 8], 8⟩ ⟨[5]⟩ [42] rfl rfl).1
      (by decide)
  · exact (doBufferedWrite_spec ⟨false, 0, [7, 8], 3⟩ ⟨[5]⟩ [42] rfl rfl).2
      (by decide)


/-- Helper list identity: taking from an append, where the first part is a
take of the same list that is then dropped. -/
theorem take_append_take_drop (D S : List Nat) (cpy len : Nat)
    (hc : cpy ≤ len) (hD : cpy ≤ D.length) :
    (D ++ S).take len = D.take cpy ++ (D.drop cpy ++ S).take (len - cpy) := by
  conv_lhs => rw [← List.take_append_drop cpy D]
  rw [List.append_assoc, List.take_append_eq_append_take]
  have hlen : (D.take cpy).length = cpy := List.length_take_of_le hD
  rw [hlen, List.take_of_length_le (by rw [hlen]; exact hc)]


/-- Helper list identity: a take of a list followed by the drop of its
realized length recovers the list. -/
theorem take_append_drop_realized (X : List Nat) (n : Nat) :
    X.take n ++ X.drop (X.take n).length = X := by
  by_cases h : n ≤ X.length
  · rw [List.length_take_of_le h, List.take_append_drop]
  · have hx : X.take n = X := List.take_of_length_le (Nat.le_of_not_le h)
    rw [hx]
    simp


/-- Core lemma for C4: whatever the buffer state, `doBufferedRead` with a
positive buffer size returns exactly the first `len` bytes of the handle's
logical rest (undrained buffer window, then stream). -/
theorem doBufferedRead_take (n : Nat) : ∀ (bufsize : Nat) (fh : RFileHandle)
    (s : RStream) (len : Nat),
    2 * len + (if fh.buffer.length - fh.bufpos = 0 then 1 else 0) ≤ n →
    0 < bufsize →
    (doBufferedRead bufsize fh s len).1 = (logicalRest fh s).take len := by
  induction n using Nat.strong_induction_on with
  | _ n ih =>
    intro bufsize fh s len hn hbs
    rw [doBufferedRead]
    by_cases hl : len = 0
    · simp [hl]
    · simp only [hl, dite_false]
      by_cases ha : 0 < fh.buffer.length - fh.bufpos
      · simp only [ha, dite_true]
        have h1 : 1 ≤ len := Nat.pos_of_ne_zero hl
        have hcpy1 : 1 ≤ min len (fh.buffer.length - fh.bufpos) := le_min h1 ha
        have hrec := ih (2 * (len - min len (fh.buffer.length - fh.bufpos)) + 1)
          (by omega)
          bufsize { fh with bufpos := fh.bufpos + min len (fh.buffer.length - fh.bufpos) } s
          (len - min len (fh.buffer.length - fh.bufpos))
          (by split_ifs <;> omega) hbs
        rw [hrec]
        unfold logicalRest
        simp only
        rw [← List.drop_drop]
        exact (take_append_take_drop (fh.buffer.drop fh.bufpos)
          (s.data.drop s.pos) (min len (fh.buffer.length - fh.bufpos)) len
          (min_le_left _ _)
          (by rw [List.length_drop]; exact min_le_right _ _)).symm
      · simp only [ha, dite_false]
        have hD : fh.buffer.drop fh.bufpos = [] := by
          apply List.eq_nil_of_length_eq_zero
          rw [List.length_drop]
          omega
        by_cases hr : 0 < ((s.data.drop s.pos).take bufsize).length
        · have hr3 : 0 < (rioRead s bufsize).1.length := hr
          rw [dif_pos hr3]
          have hio1 : (rioRead s bufsize).1 = (s.data.drop s.pos).take bufsize :=
            rfl
          have hio2 : (rioRead s bufsize).2 =
              ⟨s.data, s.pos + ((s.data.drop s.pos).take bufsize).length⟩ := rfl
          rw [hio1, hio2]
          have hrec := ih (2 * len)
            (by split_ifs at hn <;> omega)
            bufsize ⟨(s.data.drop s.pos).take bufsize, 0⟩
            ⟨s.data, s.pos + ((s.data.drop s.pos).take bufsize).length⟩ len
            (by
              have hc : ¬ ((⟨(s.data.drop s.pos).take bufsize, 0⟩ :
                  RFileHandle).buffer.length -
                  (⟨(s.data.drop s.pos).take bufsize, 0⟩ :
                  RFileHandle).bufpos = 0) := by
                dsimp only
                omega
              rw [if_neg hc]
              omega) hbs
          rw [hrec]
          unfold logicalRest
          dsimp only
          simp only [List.drop_zero, hD, List.nil_append]
          rw [← List.drop_drop, take_append_drop_realized]
        · have hr3 : ¬ 0 < (rioRead s bufsize).1.length := hr
          rw [dif_neg hr3]
          have hnil : s.data.drop s.pos = [] := by
            have htake : (s.data.drop s.pos).take bufsize = [] :=
              List.eq_nil_of_length_eq_zero (Nat.eq_zero_of_not_pos hr)
            rcases List.take_eq_nil_iff.mp htake with h | h
            · first
              | exact h
              | exact absurd h (by omega)
            · first
              | exact h
              | exact absurd h (by omega)
          simp [logicalRest, hD, hnil]


/-- C4: reading any number of bytes (hence in particular reading to EOF)
from the start of a file through a handle with a buffer of any positive
size yields exactly the same byte sequence as through an unbuffered
handle — both deliver `data.take len`; and in any intermediate state the
buffered path delivers the undrained buffer window followed by the
underlying stream, i.e. it drains `buffer[bufpos..buffill)` before
refilling. -/
theorem buffered_read_eq_unbuffered (data : List Nat) (bufsize len : Nat)
    (fh : RFileHandle) (s : RStream) (hbs : 0 < bufsize) :
    (PHYSFS_readBytes ⟨true, some ⟨[], 0⟩, bufsize, ⟨data, 0⟩⟩ len).1 =
      (none, data.take len) ∧
    (PHYSFS_readBytes ⟨true, none, bufsize, ⟨data, 0⟩⟩ len).1 =
      (none, data.take len) ∧
    (doBufferedRead bufsize fh s len).1 = (logicalRest fh s).take len := by
  have hcore := doBufferedRead_take
    (2 * len + (if fh.buffer.length - fh.bufpos = 0 then 1 else 0))
    bufsize fh s len (le_refl _) hbs
  have hfresh := doBufferedRead_take (2 * len + 1) bufsize ⟨[], 0⟩ ⟨data, 0⟩ len
    (by simp) hbs
  refine ⟨?_, ?_, hcore⟩
  · by_cases hl : len = 0
    · simp [PHYSFS_readBytes, hl]
    · simp only [PHYSFS_readBytes, hl]
      simp [hfresh, logicalRest]
  · by_cases hl : len = 0
    · simp [PHYSFS_readBytes, hl]
    · simp [PHYSFS_readBytes, hl, rioRead]


/-- Witness for `buffered_read_eq_unbuffered`: a three-byte file read
through a two-byte buffer and unbuffered, both give the same bytes. -/
theorem buffered_read_eq_unbuffered_witness :
    (PHYSFS_readBytes ⟨true, some ⟨[], 0⟩, 2, ⟨[10, 20, 30], 0⟩⟩ 7).1 =
      (none, [10, 20, 30]) ∧
    (PHYSFS_readBytes ⟨true, none, 2, ⟨[10, 20, 30], 0⟩⟩ 7).1 =
      (none, [10, 20, 30]) := by
  have h := buffered_read_eq_unbuffered [10, 20, 30] 2 7 ⟨[], 0⟩ ⟨[], 0⟩
    (by decide)
  exact ⟨h.1, h.2.1⟩


/-- A last-slash index is a valid position in the name. -/
theorem lastSlashIdx_lt (name : List Nat) (i : Nat)
    (h : lastSlashIdx name = some i) : i < name.length := by
  induction name generalizing i with
  | nil => simp [lastSlashIdx] at h
  | cons c rest ih =>
    rw [lastSlashIdx] at h
    cases hrec : lastSlashIdx rest with
    | some j =>
      rw [hrec] at h
      obtain rfl : j + 1 = i := by simpa using h
      exact Nat.succ_lt_succ (ih j hrec)
    | none =>
      rw [hrec] at h
      by_cases hc : c = 47
      · rw [if_pos hc] at h
        obtain rfl : (0 : Nat) = i := by simpa using h
        simp
      · simp [hc] at h


/-- The name comparison is reflexive. -/
theorem nameMatches_refl (dt : DirTree) (a : List Nat) :
    nameMatches dt a a = true := by
  simp [nameMatches, utf8stricmpEq]


/-- The name comparison is symmetric. -/
theorem nameMatches_symm (dt : DirTree) (a b : List Nat) :
    nameMatches dt a b = nameMatches dt b a := by
  simp only [nameMatches, utf8stricmpEq]
  split_ifs
  · exact Bool.beq_comm
  · exact Bool.beq_comm


/-- Two names matching a common third match each other. -/
theorem nameMatches_right (dt : DirTree) (a b c : List Nat)
    (h1 : nameMatches dt a c = true) (h2 : nameMatches dt b c = true) :
    nameMatches dt a b = true := by
  simp only [nameMatches, utf8stricmpEq] at h1 h2 ⊢
  split_ifs at h1 h2 ⊢ with hcs
  · simp only [beq_iff_eq] at h1 h2 ⊢
    rw [h1, h2]
  · simp only [beq_iff_eq] at h1 h2 ⊢
    rw [h1, h2]


/-- Matching names have equal length (folding is byte-wise). -/
theorem nameMatches_length (dt : DirTree) (a b : List Nat)
    (h : nameMatches dt a b = true) : a.length = b.length := by
  simp only [nameMatches, utf8stricmpEq] at h
  split_ifs at h with hcs
  · simp only [beq_iff_eq] at h
    rw [h]
  · simp only [beq_iff_eq] at h
    have hlen := congrArg List.length h
    simpa using hlen


/-- The first component of a bucket scan is a `find?` over the chain. -/
theorem bucketScan_fst (dt : DirTree) (p : List Nat) :
    ∀ b, (bucketScan dt p b).map Prod.fst =
      b.find? (fun e => nameMatches dt e.name p) := by
  intro b
  induction b with
  | nil => simp [bucketScan]
  | cons e rest ih =>
    rw [bucketScan]
    by_cases h : nameMatches dt e.name p
    · rw [if_pos h,
        show (e :: rest).find? (fun x => nameMatches dt x.name p) = some e from
          List.find?_cons_of_pos _ h]
      simp
    · rw [if_neg h,
        show (e :: rest).find? (fun x => nameMatches dt x.name p) =
            rest.find? (fun x => nameMatches dt x.name p) from
          List.find?_cons_of_neg _ (by simpa using h),
        ← ih]
      cases hrec : bucketScan dt p rest with
      | none => simp [hrec]
      | some pr =>
        obtain ⟨r, rest2⟩ := pr
        simp [hrec]


/-- A successful bucket scan returns a matching entry and the chain minus
that entry: move-to-front re-linking is a permutation of the chain. -/
theorem bucketScan_some (dt : DirTree) (p : List Nat) :
    ∀ (b : List DirTreeEntry) (e : DirTreeEntry) (rest : List DirTreeEntry),
    bucketScan dt p b = some (e, rest) →
    nameMatches dt e.name p = true ∧ b.Perm (e :: rest) := by
  intro b
  induction b with
  | nil => intro e rest h; simp [bucketScan] at h
  | cons x xs ih =>
    intro e rest h
    rw [bucketScan] at h
    by_cases hx : nameMatches dt x.name p
    · rw [if_pos hx] at h
      simp only [Option.some.injEq, Prod.mk.injEq] at h
      obtain ⟨rfl, rfl⟩ := h
      exact ⟨hx, List.Perm.refl _⟩
    · rw [if_neg hx] at h
      cases hrec : bucketScan dt p xs with
      | none => rw [hrec] at h; cases h
      | some pr =>
        rw [hrec] at h
        obtain ⟨r, rest2⟩ := pr
        simp only [Option.some.injEq, Prod.mk.injEq] at h
        obtain ⟨rfl, rfl⟩ := h
        obtain ⟨hm, hp⟩ := ih r rest2 hrec
        exact ⟨hm, (hp.cons x).trans (List.Perm.swap r x rest2)⟩


/-- A failed bucket scan means no chain entry matches. -/
theorem bucketScan_none (dt : DirTree) (p : List Nat)
    (b : List DirTreeEntry) (h : bucketScan dt p b = none) :
    ∀ e ∈ b, nameMatches dt e.name p = false := by
  have hf := bucketScan_fst dt p b
  rw [h] at hf
  intro e he
  have := List.find?_eq_none.mp hf.symm e he
  simpa using this


/-- Over a chain whose entries pairwise do not match each other, `find?`
depends only on the set of entries: permuting the chain does not change
which entry is found. -/
theorem find?_eq_of_perm (dt : DirTree) (p : List Nat)
    (b b2 : List DirTreeEntry) (hperm : b.Perm b2)
    (hpw : b.Pairwise (fun x y => nameMatches dt x.name y.name = false)) :
    b.find? (fun e => nameMatches dt e.name p) =
      b2.find? (fun e => nameMatches dt e.name p) := by
  have hsym : Symmetric (fun x y : DirTreeEntry =>
      nameMatches dt x.name y.name = false) := by
    intro x y hxy
    rw [← nameMatches_symm]
    exact hxy
  cases hfb : b.find? (fun e => nameMatches dt e.name p) with
  | none =>
    have hall := List.find?_eq_none.mp hfb
    symm
    rw [List.find?_eq_none]
    intro x hx
    exact hall x (hperm.symm.subset hx)
  | some e =>
    have he : e ∈ b := List.mem_of_find?_eq_some hfb
    have hpe : nameMatches dt e.name p = true := by
      simpa using List.find?_some hfb
    cases hfb2 : b2.find? (fun e => nameMatches dt e.name p) with
    | none =>
      have := List.find?_eq_none.mp hfb2 e (hperm.subset he)
      simp [hpe] at this
    | some e2 =>
      have he2 : e2 ∈ b := hperm.symm.subset (List.mem_of_find?_eq_some hfb2)
      have hpe2 : nameMatches dt e2.name p = true := by
        simpa using List.find?_some hfb2
      by_cases heq : e = e2
      · rw [heq]
      · have hfalse := List.Pairwise.forall hsym hpw he he2 heq
        have htrue := nameMatches_right dt e.name e2.name p hpe hpe2
        rw [htrue] at hfalse
        cases hfalse


/-- A find never changes the root, the flags or the bucket count. -/
theorem DirTreeFind_skel (dt : DirTree) (p : List Nat) :
    (DirTreeFind dt p).2.caseSensitive = dt.caseSensitive ∧
    (DirTreeFind dt p).2.onlyUsascii = dt.onlyUsascii ∧
    (DirTreeFind dt p).2.root = dt.root ∧
    (DirTreeFind dt p).2.buckets.length = dt.buckets.length := by
  unfold DirTreeFind
  by_cases hp : p = []
  · simp [hp]
  · simp only [hp, if_false]
    cases hscan : bucketScan dt p (dt.buckets.getD (hashPathName dt p) []) with
    | none => simp
    | some pr =>
      obtain ⟨e, rest⟩ := pr
      simp


/-- Reading back a just-set list element. -/
theorem getD_set_self {α : Type} (l : List α) (i : Nat) (a d : α)
    (h : i < l.length) : (l.set i a).getD i d = a := by
  rw [List.getD_eq_getElem _ _ (by simpa using h)]
  simp


/-- Setting one list element leaves the others unchanged. -/
theorem getD_set_ne {α : Type} (l : List α) (i j : Nat) (a d : α)
    (h : i ≠ j) : (l.set i a).getD j d = l.getD j d := by
  rw [List.getD_eq_getElem?_getD, List.getElem?_set_ne h,
    ← List.getD_eq_getElem?_getD]


/-- A hash value indexes one of the 64 buckets. -/
theorem hashPathName_lt (dt : DirTree) (p : List Nat) :
    hashPathName dt p < 64 := by
  unfold hashPathName
  exact Nat.mod_lt _ (by norm_num)


/-- The first component of a find on a non-empty path is the bucket
scan's first component. -/
theorem DirTreeFind_fst (dt : DirTree) (q : List Nat) (hq : q ≠ []) :
    (DirTreeFind dt q).1 =
      (bucketScan dt q (dt.buckets.getD (hashPathName dt q) [])).map
        Prod.fst := by
  unfold DirTreeFind
  rw [if_neg hq]
  cases hscan : bucketScan dt q (dt.buckets.getD (hashPathName dt q) []) with
  | none => simp
  | some pr =>
    obtain ⟨e, rest⟩ := pr
    simp


/-- Replacing the buckets leaves the name comparison unchanged: it reads
only the flags. -/
theorem nameMatches_update (dt : DirTree) (bk : List (List DirTreeEntry)) :
    nameMatches { dt with buckets := bk } = nameMatches dt := rfl


/-- Replacing the buckets leaves the hash choice unchanged. -/
theorem hashPathName_update (dt : DirTree) (bk : List (List DirTreeEntry)) :
    hashPathName { dt with buckets := bk } = hashPathName dt := rfl


/-- Stability of find: on a well-formed tree, a find keeps the tree
well-formed, keeps every bucket's set of entries (the splice is a
permutation inside one bucket), and never changes the result any other
find returns. -/
theorem DirTreeFind_stable (dt : DirTree) (p : List Nat) (hwf : treeWF dt) :
    treeWF (DirTreeFind dt p).2 ∧
    (∀ i e, e ∈ (DirTreeFind dt p).2.buckets.getD i [] ↔
        e ∈ dt.buckets.getD i []) ∧
    (∀ q, (DirTreeFind (DirTreeFind dt p).2 q).1 = (DirTreeFind dt q).1) := by
  by_cases hp : p = []
  · have hfind : DirTreeFind dt p = (some dt.root, dt) := by
      simp [DirTreeFind, hp]
    rw [hfind]
    exact ⟨hwf, fun i e => Iff.rfl, fun q => rfl⟩
  · cases hscan : bucketScan dt p
        (dt.buckets.getD (hashPathName dt p) []) with
    | none =>
      have hfind : DirTreeFind dt p = (none, dt) := by
        unfold DirTreeFind
        rw [if_neg hp, hscan]
      rw [hfind]
      exact ⟨hwf, fun i e => Iff.rfl, fun q => rfl⟩
    | some pr =>
      obtain ⟨e, rest⟩ := pr
      have hfind : DirTreeFind dt p =
          (some e,
            { dt with buckets :=
                dt.buckets.set (hashPathName dt p) (e :: rest) }) := by
        unfold DirTreeFind
        rw [if_neg hp, hscan]
      obtain ⟨hmatch, hperm⟩ := bucketScan_some dt p _ e rest hscan
      have hsym : Symmetric (fun x y : DirTreeEntry =>
          nameMatches dt x.name y.name = false) := by
        intro x y hxy
        rw [← nameMatches_symm]
        exact hxy
      have hvlt : hashPathName dt p < dt.buckets.length := by
        rw [hwf.1]
        exact hashPathName_lt dt p
      have hbucket : ∀ i,
          (dt.buckets.set (hashPathName dt p) (e :: rest)).getD i [] =
            if hashPathName dt p = i then e :: rest
            else dt.buckets.getD i [] := by
        intro i
        by_cases hi : hashPathName dt p = i
        · rw [if_pos hi]
          subst hi
          exact getD_set_self _ _ _ _ hvlt
        · rw [if_neg hi]
          exact getD_set_ne _ _ _ _ _ hi
      rw [hfind]
      dsimp only
      refine ⟨?_, ?_, ?_⟩
      · constructor
        · simpa using hwf.1
        · intro i hi
          dsimp only
          rw [nameMatches_update dt
              (dt.buckets.set (hashPathName dt p) (e :: rest)), hbucket i]
          by_cases hpi : hashPathName dt p = i
          · rw [if_pos hpi]
            have hpw := hwf.2 i hi
            rw [← hpi] at hpw
            exact (hperm.pairwise_iff (fun hxy => hsym hxy)).mp hpw
          · rw [if_neg hpi]
            exact hwf.2 i hi
      · intro i x
        rw [hbucket i]
        by_cases hpi : hashPathName dt p = i
        · rw [if_pos hpi, ← hpi]
          exact ⟨fun hx => hperm.symm.subset hx, fun hx => hperm.subset hx⟩
        · rw [if_neg hpi]
      · intro q
        by_cases hq : q = []
        · simp [DirTreeFind, hq]
        · rw [DirTreeFind_fst _ q hq, DirTreeFind_fst dt q hq,
            bucketScan_fst, bucketScan_fst,
            hashPathName_update dt
              (dt.buckets.set (hashPathName dt p) (e :: rest)),
            nameMatches_update dt
              (dt.buckets.set (hashPathName dt p) (e :: rest))]
          dsimp only
          rw [hbucket (hashPathName dt q)]
          by_cases hpq : hashPathName dt p = hashPathName dt q
          · rw [if_pos hpq]
            have hpw := hwf.2 (hashPathName dt p) (hashPathName_lt dt p)
            rw [hpq] at hperm hpw
            exact (find?_eq_of_perm dt q _ _ hperm hpw).symm
          · rw [if_neg hpq]


/-- Equal case-sensitivity flags give the same name comparison. -/
theorem nameMatches_flag (dtA dtB : DirTree)
    (h : dtA.caseSensitive = dtB.caseSensitive) :
    nameMatches dtA = nameMatches dtB := by
  funext a b
  simp [nameMatches, h]


/-- Equal flags give the same hash choice. -/
theorem hashPathName_flag (dtA dtB : DirTree)
    (h1 : dtA.caseSensitive = dtB.caseSensitive)
    (h2 : dtA.onlyUsascii = dtB.onlyUsascii) :
    hashPathName dtA = hashPathName dtB := by
  funext a
  simp [hashPathName, h1, h2]


/-- A failed find leaves the tree untouched and certifies that no entry of
the scanned bucket matches the path. -/
theorem DirTreeFind_none (dt : DirTree) (name : List Nat) (dt1 : DirTree)
    (hne : name ≠ []) (heq : DirTreeFind dt name = (none, dt1)) :
    dt1 = dt ∧
    ∀ x ∈ dt.buckets.getD (hashPathName dt name) [],
      nameMatches dt x.name name = false := by
  unfold DirTreeFind at heq
  rw [if_neg hne] at heq
  cases hscan : bucketScan dt name
      (dt.buckets.getD (hashPathName dt name) []) with
  | none =>
    rw [hscan] at heq
    refine ⟨?_, bucketScan_none dt name _ hscan⟩
    have := congrArg Prod.snd heq
    simpa using this.symm
  | some pr =>
    obtain ⟨x, rest⟩ := pr
    rw [hscan] at heq
    simp at heq


/-- Combined preservation for the mutual recursion of `addAncestors` and
`DirTreeAdd`, by strong induction on the name length (with the add calls
weighted one heavier): both keep the tree well-formed and the flags
unchanged, and only ever insert entries whose names are strictly shorter
(ancestors) respectively no longer (add) than the argument name. -/
theorem add_preserves (k : Nat) : ∀ (dt : DirTree) (name : List Nat)
    (isdir : Bool) (r : DirTreeEntry × DirTree),
    (2 * name.length ≤ k → treeWF dt → addAncestors dt name = some r →
      treeWF r.2 ∧ r.2.caseSensitive = dt.caseSensitive ∧
      r.2.onlyUsascii = dt.onlyUsascii ∧
      (∀ j x, x ∈ r.2.buckets.getD j [] →
        x ∈ dt.buckets.getD j [] ∨ x.name.length < name.length)) ∧
    (2 * name.length + 1 ≤ k → treeWF dt →
      DirTreeAdd dt name isdir = some r →
      treeWF r.2 ∧ r.2.caseSensitive = dt.caseSensitive ∧
      r.2.onlyUsascii = dt.onlyUsascii ∧
      (∀ j x, x ∈ r.2.buckets.getD j [] →
        x ∈ dt.buckets.getD j [] ∨ x.name.length ≤ name.length)) := by
  induction k using Nat.strong_induction_on with
  | _ k ih =>
    intro dt name isdir r
    constructor
    · intro hk hwf hanc
      rw [addAncestors] at hanc
      split at hanc
      · obtain rfl : (dt.root, dt) = r := by simpa using hanc
        exact ⟨hwf, rfl, rfl, fun j x hx => Or.inl hx⟩
      · rename_i i hs
        split at hanc
        · rename_i e2 dt2 heq
          split at hanc
          · obtain rfl : (e2, dt2) = r := by simpa using hanc
            have hst := DirTreeFind_stable dt (name.take i) hwf
            have hsk := DirTreeFind_skel dt (name.take i)
            rw [heq] at hst hsk
            exact ⟨hst.1, hsk.1, hsk.2.1,
              fun j x hx => Or.inl ((hst.2.1 j x).mp hx)⟩
          · cases hanc
        · rename_i dt2 heq
          have hlt := lastSlashIdx_lt name i hs
          have hlen : (name.take i).length = i := by
            rw [List.length_take]
            omega
          have hst := DirTreeFind_stable dt (name.take i) hwf
          have hsk := DirTreeFind_skel dt (name.take i)
          rw [heq] at hst hsk
          have hrec := (ih (2 * (name.take i).length + 1) (by omega) dt2
            (name.take i) true r).2 (le_refl _) hst.1 hanc
          refine ⟨hrec.1, hrec.2.1.trans hsk.1, hrec.2.2.1.trans hsk.2.1, ?_⟩
          intro j x hx
          rcases hrec.2.2.2 j x hx with hmem | hshort
          · exact Or.inl ((hst.2.1 j x).mp hmem)
          · right
            omega
    · intro hk hwf hadd
      rcases hfind : DirTreeFind dt name with ⟨ofe, dt1⟩
      cases ofe with
      | some e2 =>
        rw [DirTreeAdd, hfind] at hadd
        dsimp only at hadd
        obtain rfl : (e2, dt1) = r := by simpa using hadd
        have hst := DirTreeFind_stable dt name hwf
        have hsk := DirTreeFind_skel dt name
        rw [hfind] at hst hsk
        exact ⟨hst.1, hsk.1, hsk.2.1,
          fun j x hx => Or.inl ((hst.2.1 j x).mp hx)⟩
      | none =>
        rw [DirTreeAdd, hfind] at hadd
        dsimp only at hadd
        rcases hanc3 : addAncestors dt1 name with _ | ⟨par, dt2⟩
        · rw [hanc3] at hadd
          cases hadd
        · rw [hanc3] at hadd
          obtain rfl :
              ((⟨name, isdir, 0, 0, 0, 0⟩ : DirTreeEntry),
                ({ dt2 with buckets :=
                  (dt2.buckets.set (hashPathName dt2 name)
                    (⟨name, isdir, 0, 0, 0, 0⟩ ::
                      dt2.buckets.getD (hashPathName dt2 name) [])) } :
                        DirTree)) = r := by
            simpa using hadd
          have hne : name ≠ [] := by
            intro hnil
            rw [hnil] at hfind
            have := congrArg Prod.fst hfind
            simp [DirTreeFind] at this
          obtain ⟨heqdt, hnomatch⟩ := DirTreeFind_none dt name dt1 hne hfind
          rw [heqdt] at hanc3
          have hanc := (ih (2 * name.length) (by omega) dt name isdir
            (par, dt2)).1 (le_refl _) hwf hanc3
          dsimp only at hanc
          obtain ⟨hwf2, hcs2, hua2, hmem2⟩ := hanc
          have hhash2 : hashPathName dt2 = hashPathName dt :=
            hashPathName_flag dt2 dt hcs2 hua2
          have hnm2 : nameMatches dt2 = nameMatches dt :=
            nameMatches_flag dt2 dt hcs2
          have hvlt : hashPathName dt2 name < dt2.buckets.length := by
            rw [hwf2.1]
            exact hashPathName_lt dt2 name
          have hbucket3 : ∀ j,
              ((dt2.buckets.set (hashPathName dt2 name)
                (⟨name, isdir, 0, 0, 0, 0⟩ ::
                  dt2.buckets.getD (hashPathName dt2 name) []))).getD j [] =
              if hashPathName dt2 name = j then
                ⟨name, isdir, 0, 0, 0, 0⟩ ::
                  dt2.buckets.getD (hashPathName dt2 name) []
              else dt2.buckets.getD j [] := by
            intro j
            by_cases hj : hashPathName dt2 name = j
            · rw [if_pos hj]
              subst hj
              exact getD_set_self _ _ _ _ hvlt
            · rw [if_neg hj]
              exact getD_set_ne _ _ _ _ _ hj
          have hnomatch2 : ∀ x ∈ dt2.buckets.getD (hashPathName dt2 name) [],
              nameMatches dt2 name x.name = false := by
            intro x hx
            rcases hmem2 (hashPathName dt2 name) x hx with hmem | hshort
            · rw [hhash2] at hmem
              have hfalse := hnomatch x hmem
              rw [hnm2, ← nameMatches_symm]
              exact hfalse
            · rw [Bool.eq_false_iff]
              intro htrue
              have := nameMatches_length dt2 name x.name htrue
              omega
          refine ⟨⟨by simpa using hwf2.1, ?_⟩, hcs2, hua2, ?_⟩
          · intro j hj
            dsimp only
            rw [nameMatches_update dt2 _, hbucket3 j]
            by_cases hjv : hashPathName dt2 name = j
            · rw [if_pos hjv]
              refine List.Pairwise.cons ?_ ?_
              · intro x hx
                exact hnomatch2 x hx
              · exact hwf2.2 (hashPathName dt2 name)
                  (hashPathName_lt dt2 name)
            · rw [if_neg hjv]
              exact hwf2.2 j hj
          · intro j x hx
            dsimp only at hx
            rw [hbucket3 j] at hx
            by_cases hjv : hashPathName dt2 name = j
            · rw [if_pos hjv] at hx
              rcases List.mem_cons.mp hx with hhead | htail
              · right
                rw [hhead]
              · rcases hmem2 (hashPathName dt2 name) x htail with hmem | hshort
                · rw [hjv] at hmem
                  exact Or.inl hmem
                · right
                  omega
            · rw [if_neg hjv] at hx
              rcases hmem2 j x hx with hmem | hshort
              · exact Or.inl hmem
              · right
                omega


/-- Adding an entry then finding its full path returns exactly that entry
(and keeps the tree well-formed). -/
theorem DirTreeAdd_find (dt : DirTree) (name : List Nat) (isdir : Bool)
    (e : DirTreeEntry) (dt2 : DirTree) (hwf : treeWF dt)
    (h : DirTreeAdd dt name isdir = some (e, dt2)) :
    (DirTreeFind dt2 name).1 = some e ∧ treeWF dt2 := by
  have hpres := (add_preserves (2 * name.length + 1) dt name isdir
    (e, dt2)).2 (le_refl _) hwf h
  dsimp only at hpres
  refine ⟨?_, hpres.1⟩
  rcases hfind : DirTreeFind dt name with ⟨ofe, dt1⟩
  cases ofe with
  | some e1 =>
    rw [DirTreeAdd, hfind] at h
    dsimp only at h
    obtain ⟨rfl, rfl⟩ : e1 = e ∧ dt1 = dt2 := by simpa using h
    have hst := DirTreeFind_stable dt name hwf
    rw [hfind] at hst
    dsimp only at hst
    rw [hst.2.2 name, hfind]
  | none =>
    rw [DirTreeAdd, hfind] at h
    dsimp only at h
    rcases hanc3 : addAncestors dt1 name with _ | ⟨par, dtA⟩
    · rw [hanc3] at h
      cases h
    · rw [hanc3] at h
      have hne : name ≠ [] := by
        intro hnil
        rw [hnil] at hfind
        have := congrArg Prod.fst hfind
        simp [DirTreeFind] at this
      obtain ⟨rfl, rfl⟩ :
          (⟨name, isdir, 0, 0, 0, 0⟩ : DirTreeEntry) = e ∧
          ({ dtA with buckets :=
            (dtA.buckets.set (hashPathName dtA name)
              (⟨name, isdir, 0, 0, 0, 0⟩ ::
                dtA.buckets.getD (hashPathName dtA name) [])) } :
                  DirTree) = dt2 := by
        simpa using h
      obtain ⟨heqdt, hnomatch⟩ := DirTreeFind_none dt name dt1 hne hfind
      rw [heqdt] at hanc3
      have hanc := (add_preserves (2 * name.length) dt name isdir
        (par, dtA)).1 (le_refl _) hwf hanc3
      dsimp only at hanc
      obtain ⟨hwfA, hcsA, huaA, _⟩ := hanc
      have hvlt : hashPathName dtA name < dtA.buckets.length := by
        rw [hwfA.1]
        exact hashPathName_lt dtA name
      rw [DirTreeFind_fst _ name hne,
        hashPathName_update dtA
          (dtA.buckets.set (hashPathName dtA name)
            (⟨name, isdir, 0, 0, 0, 0⟩ ::
              dtA.buckets.getD (hashPathName dtA name) []))]
      dsimp only
      rw [getD_set_self _ _ _ _ hvlt, bucketScan]
      rw [if_pos ?_]
      · simp
      · exact nameMatches_refl _ name


/-- C5: find on the empty path returns the root; for every entry E
inserted by add, a subsequent find on E's full path returns E itself; and
the move-to-front splice a find performs inside a hash bucket keeps the
tree well-formed and never changes which entry any later find returns. -/
theorem dirtree_add_find_spec (dt : DirTree) (name p q : List Nat)
    (isdir : Bool) (e : DirTreeEntry) (dt2 : DirTree) :
    (DirTreeFind dt []).1 = some dt.root ∧
    (treeWF dt → DirTreeAdd dt name isdir = some (e, dt2) →
      (DirTreeFind dt2 name).1 = some e ∧ treeWF dt2) ∧
    (treeWF dt →
      treeWF (DirTreeFind dt p).2 ∧
      (DirTreeFind (DirTreeFind dt p).2 q).1 = (DirTreeFind dt q).1) :=
  ⟨by simp [DirTreeFind],
   fun hwf h => DirTreeAdd_find dt name isdir e dt2 hwf h,
   fun hwf => ⟨(DirTreeFind_stable dt p hwf).1,
     (DirTreeFind_stable dt p hwf).2.2 q⟩⟩


/-- Witness for `dirtree_add_find_spec`: adding "a" (byte 97) to a fresh
case-sensitive tree and finding it again returns the added entry; the
find keeps the fresh tree well-formed. -/
theorem dirtree_add_find_spec_witness :
    (DirTreeFind (DirTreeInit true true) []).1 =
      some (DirTreeInit true true).root ∧
    (DirTreeFind
      ({ DirTreeInit true true with buckets :=
        ((List.replicate 64 ([] : List DirTreeEntry)).set 4
          [⟨[97], false, 0, 0, 0, 0⟩]) } : DirTree) [97]).1 =
      some ⟨[97], false, 0, 0, 0, 0⟩ ∧
    treeWF (DirTreeFind (DirTreeInit true true) [97]).2 := by
  have hanc : addAncestors (DirTreeInit true true) [97] =
      some ((DirTreeInit true true).root, DirTreeInit true true) := by
    rw [addAncestors]
    decide
  have hadd : DirTreeAdd (DirTreeInit true true) [97] false =
      some (⟨[97], false, 0, 0, 0, 0⟩,
        ({ DirTreeInit true true with buckets :=
          ((List.replicate 64 ([] : List DirTreeEntry)).set 4
            [⟨[97], false, 0, 0, 0, 0⟩]) } : DirTree)) := by
    rw [DirTreeAdd,
      show DirTreeFind (DirTreeInit true true) [97] =
        (none, DirTreeInit true true) from by decide]
    dsimp only
    rw [hanc]
    decide
  have h := dirtree_add_find_spec (DirTreeInit true true) [97] [97] [97]
    false ⟨[97], false, 0, 0, 0, 0⟩
    ({ DirTreeInit true true with buckets :=
      ((List.replicate 64 ([] : List DirTreeEntry)).set 4
        [⟨[97], false, 0, 0, 0, 0⟩]) } : DirTree)
  exact ⟨h.1, (h.2.1 (by decide) hadd).1, (h.2.2 (by decide)).1⟩


/-- The GRP loading loop is the fold of `UNPK_addEntry` over the header
records with offsets assigned by the running sum of sizes. -/
theorem grpLoadLoop_records (count : Nat) : ∀ (pos : Nat) (t : DirTree)
    (s : RStream),
    grpLoadLoop pos count t s =
      match grpRecords count s with
      | none => none
      | some (rs, sf) =>
        match grpFoldAdd t (grpAssignPos pos rs) with
        | none => none
        | some t2 => some (t2, sf) := by
  induction count with
  | zero =>
    intro pos t s
    simp [grpLoadLoop, grpRecords, grpAssignPos, grpFoldAdd]
  | succ n ih =>
    intro pos t s
    rw [grpLoadLoop, grpRecords]
    cases h1 : readAll s 12 with
    | none => rfl
    | some pr1 =>
      obtain ⟨raw, s1⟩ := pr1
      dsimp only
      cases h2 : readAll s1 4 with
      | none => rfl
      | some pr2 =>
        obtain ⟨szb, s2⟩ := pr2
        dsimp only
        cases h3 : UNPK_addEntry t (grpName raw) false (-1) (-1) pos
            (u32LE szb) with
        | none =>
          dsimp only
          cases h4 : grpRecords n s2 with
          | none => rfl
          | some pr4 =>
            obtain ⟨rs, sf⟩ := pr4
            simp [grpAssignPos, grpFoldAdd, h3]
        | some pr3 =>
          obtain ⟨e2, t2⟩ := pr3
          dsimp only
          rw [ih (pos + u32LE szb) t2 s2]
          cases h4 : grpRecords n s2 with
          | none => rfl
          | some pr4 =>
            obtain ⟨rs, sf⟩ := pr4
            simp [grpAssignPos, grpFoldAdd, h3]


/-- For a name without a slash, add needs no ancestors: an existing entry
is returned as-is, a missing one is inserted at the head of its hash
bucket. -/
theorem DirTreeAdd_noslash (dt : DirTree) (name : List Nat) (isdir : Bool)
    (hns : lastSlashIdx name = none) :
    DirTreeAdd dt name isdir =
      match DirTreeFind dt name with
      | (some e, dt1) => some (e, dt1)
      | (none, dt1) =>
        some (⟨name, isdir, 0, 0, 0, 0⟩,
          { dt1 with buckets :=
            (dt1.buckets.set (hashPathName dt1 name)
              (⟨name, isdir, 0, 0, 0, 0⟩ ::
                dt1.buckets.getD (hashPathName dt1 name) [])) }) := by
  rcases hfind : DirTreeFind dt name with ⟨ofe, dt1⟩
  rw [DirTreeAdd, hfind]
  cases ofe with
  | some e => rfl
  | none =>
    have hanc : addAncestors dt1 name = some (dt1.root, dt1) := by
      rw [addAncestors]
      split
      · rfl
      · rename_i i hs2
        rw [hns] at hs2
        cases hs2
    dsimp only
    rw [hanc]


/-- C8: GRP parsing assigns entry 0 the data offset `16 + 16*N` and every
later entry the previous entry's offset plus the previous entry's size
(the loop is the fold over `grpRecords` with offsets from `grpAssignPos`,
started by `GRP_openArchive` at `16 + 16*count`); each entry's name is
its 12-byte field trimmed of space padding and its size the little-endian
32-bit size field; and on the §8 scenario archive, opening and reading
HELLO.TXT yields "world" while stat of DATA.BIN reports file size 3. -/
theorem grp_parse_spec (pos count : Nat) (t : DirTree) (s sArc : RStream)
    (sig cntb : List Nat) (s1 s2 : RStream) :
    (grpLoadLoop pos count t s =
      match grpRecords count s with
      | none => none
      | some (rs, sf) =>
        match grpFoldAdd t (grpAssignPos pos rs) with
        | none => none
        | some t2 => some (t2, sf)) ∧
    (readAll sArc 12 = some (sig, s1) → sig = kenSig →
      readAll s1 4 = some (cntb, s2) →
      GRP_openArchive sArc false =
        match grpLoadLoop (16 + 16 * u32LE cntb) (u32LE cntb)
            (DirTreeInit false true) s2 with
        | none => OpenResult.fail true none
        | some (t2, s3) => OpenResult.ok ⟨t2, s3⟩) ∧
    (GRP_openArchive ⟨grpScenarioBytes, 0⟩ false =
      OpenResult.ok ⟨grpScenarioTree, ⟨grpScenarioBytes, 48⟩⟩) ∧
    ((UNPK_openRead ⟨grpScenarioTree, ⟨grpScenarioBytes, 48⟩⟩
        [72, 69, 76, 76, 79, 46, 84, 88, 84]).1 =
      some ⟨grpHelloEntry, 0, ⟨grpScenarioBytes, 48⟩⟩) ∧
    ((UNPK_read ⟨grpHelloEntry, 0, ⟨grpScenarioBytes, 48⟩⟩ 1000).1 =
      [119, 111, 114, 108, 100]) ∧
    (((UNPK_stat ⟨grpScenarioTree, ⟨grpScenarioBytes, 48⟩⟩
        [68, 65, 84, 65, 46, 66, 73, 78]).1).map PStat.filesize =
      some 3) := by
  refine ⟨grpLoadLoop_records count pos t s, ?_, ?_, by decide, by decide,
    by decide⟩
  · intro h1 h2 h3
    subst h2
    simp [GRP_openArchive, h1, h3]
  · have hadd1 : UNPK_addEntry (DirTreeInit false true)
        (grpName [72, 69, 76, 76, 79, 46, 84, 88, 84, 32, 32, 32]) false
        (-1) (-1) 48 (u32LE [5, 0, 0, 0]) =
        some (grpHelloEntry,
          ⟨⟨[47], true, 0, 0, 0, 0⟩,
            ((List.replicate 64 ([] : List DirTreeEntry)).set 49
              [grpHelloEntry]), false, true⟩) := by
      rw [UNPK_addEntry, DirTreeAdd_noslash _ _ _ (by decide)]
      decide
    have hadd2 : UNPK_addEntry
        (⟨⟨[47], true, 0, 0, 0, 0⟩,
          ((List.replicate 64 ([] : List DirTreeEntry)).set 49
            [grpHelloEntry]), false, true⟩ : DirTree)
        (grpName [68, 65, 84, 65, 46, 66, 73, 78, 32, 32, 32, 32]) false
        (-1) (-1) (48 + u32LE [5, 0, 0, 0]) (u32LE [3, 0, 0, 0]) =
        some (grpDataEntry, grpScenarioTree) := by
      rw [UNPK_addEntry, DirTreeAdd_noslash _ _ _ (by decide)]
      decide
    have hloop : grpLoadLoop 48 2 (DirTreeInit false true)
        ⟨grpScenarioBytes, 16⟩ =
        some (grpScenarioTree, ⟨grpScenarioBytes, 48⟩) := by
      rw [grpLoadLoop,
        show readAll ⟨grpScenarioBytes, 16⟩ 12 =
          some ([72, 69, 76, 76, 79, 46, 84, 88, 84, 32, 32, 32],
            ⟨grpScenarioBytes, 28⟩) from by decide]
      dsimp only
      rw [show readAll ⟨grpScenarioBytes, 28⟩ 4 =
          some ([5, 0, 0, 0], ⟨grpScenarioBytes, 32⟩) from by decide]
      dsimp only
      rw [hadd1]
      dsimp only
      rw [grpLoadLoop,
        show readAll ⟨grpScenarioBytes, 32⟩ 12 =
          some ([68, 65, 84, 65, 46, 66, 73, 78, 32, 32, 32, 32],
            ⟨grpScenarioBytes, 44⟩) from by decide]
      dsimp only
      rw [show readAll ⟨grpScenarioBytes, 44⟩ 4 =
          some ([3, 0, 0, 0], ⟨grpScenarioBytes, 48⟩) from by decide]
      dsimp only
      rw [hadd2]
      dsimp only
      rw [grpLoadLoop]
    simp [GRP_openArchive, hloop,
      show readAll ⟨grpScenarioBytes, 0⟩ 12 =
        some (kenSig, ⟨grpScenarioBytes, 12⟩) from by decide,
      show readAll ⟨grpScenarioBytes, 12⟩ 4 =
        some ([2, 0, 0, 0], ⟨grpScenarioBytes, 16⟩) from by decide,
      show (u32LE [2, 0, 0, 0] : Nat) = 2 from by decide]


/-- Witness for `grp_parse_spec`: the open-archive clause instantiated on
the scenario archive itself. -/
theorem grp_parse_spec_witness :
    GRP_openArchive ⟨grpScenarioBytes, 0⟩ false =
      match grpLoadLoop (16 + 16 * u32LE [2, 0, 0, 0]) (u32LE [2, 0, 0, 0])
          (DirTreeInit false true) ⟨grpScenarioBytes, 16⟩ with
      | none => OpenResult.fail true none
      | some (t2, s3) => OpenResult.ok ⟨t2, s3⟩ :=
  (grp_parse_spec 0 0 (DirTreeInit false true) ⟨[], 0⟩
      ⟨grpScenarioBytes, 0⟩ kenSig [2, 0, 0, 0] ⟨grpScenarioBytes, 12⟩
      ⟨grpScenarioBytes, 16⟩).2.1 (by decide) rfl (by decide)


/-- C9: opening a QPAK whose 4-byte signature is "PACK" but whose header
directory length is not a multiple of 64 fails with CORRUPT after having
claimed the stream; when the directory length is a multiple of 64 (and
the seek to the directory offset is in range), the archive is parsed by
reading `dir_len / 64` records from the directory at `dir_off`. -/
theorem qpak_open_spec (s s1 s2 s3 : RStream) (sig offb lenb : List Nat)
    (h1 : readAll s 4 = some (sig, s1)) (hsig : u32LE sig = 1262698832)
    (h2 : readAll s1 4 = some (offb, s2))
    (h3 : readAll s2 4 = some (lenb, s3)) :
    (u32LE lenb % 64 ≠ 0 →
      QPAK_openArchive s false =
        OpenResult.fail true (some ErrCode.CORRUPT)) ∧
    (u32LE lenb % 64 = 0 → u32LE offb ≤ s3.data.length →
      QPAK_openArchive s false =
        match qpakLoadLoop (u32LE lenb / 64) (DirTreeInit true false)
            ⟨s3.data, u32LE offb⟩ with
        | none => OpenResult.fail true none
        | some (t, s4) => OpenResult.ok ⟨t, s4⟩) := by
  constructor
  · intro hmod
    simp [QPAK_openArchive, h1, hsig, h2, h3, hmod]
  · intro hmod hseek
    simp [QPAK_openArchive, h1, hsig, h2, h3, hmod, hseek]


/-- Witness for `qpak_open_spec`: a PACK header with directory length 65
is CORRUPT; one with directory length 0 (directory at offset 12) opens as
an empty archive. -/
theorem qpak_open_spec_witness :
    QPAK_openArchive ⟨[80, 65, 67, 75, 12, 0, 0, 0, 65, 0, 0, 0], 0⟩
        false = OpenResult.fail true (some ErrCode.CORRUPT) ∧
    QPAK_openArchive ⟨[80, 65, 67, 75, 12, 0, 0, 0, 0, 0, 0, 0], 0⟩
        false = OpenResult.ok ⟨DirTreeInit true false,
          ⟨[80, 65, 67, 75, 12, 0, 0, 0, 0, 0, 0, 0], 12⟩⟩ := by
  constructor
  · exact (qpak_open_spec
      ⟨[80, 65, 67, 75, 12, 0, 0, 0, 65, 0, 0, 0], 0⟩
      ⟨[80, 65, 67, 75, 12, 0, 0, 0, 65, 0, 0, 0], 4⟩
      ⟨[80, 65, 67, 75, 12, 0, 0, 0, 65, 0, 0, 0], 8⟩
      ⟨[80, 65, 67, 75, 12, 0, 0, 0, 65, 0, 0, 0], 12⟩
      [80, 65, 67, 75] [12, 0, 0, 0] [65, 0, 0, 0]
      (by decide) (by decide) (by decide) (by decide)).1 (by decide)
  · have h := (qpak_open_spec
      ⟨[80, 65, 67, 75, 12, 0, 0, 0, 0, 0, 0, 0], 0⟩
      ⟨[80, 65, 67, 75, 12, 0, 0, 0, 0, 0, 0, 0], 4⟩
      ⟨[80, 65, 67, 75, 12, 0, 0, 0, 0, 0, 0, 0], 8⟩
      ⟨[80, 65, 67, 75, 12, 0, 0, 0, 0, 0, 0, 0], 12⟩
      [80, 65, 67, 75] [12, 0, 0, 0] [0, 0, 0, 0]
      (by decide) (by decide) (by decide) (by decide)).2 (by decide)
      (by decide)
    rw [h]
    rfl

end MetaPhysFS
